import Mathlib

/-!
Shallow embedding of `src/dashboard.py` (Trending Translators Dashboard).

The dashboard loads a JSON array of per-translator records, flattens it into
a row-per-post table (`prepare_data`), derives a per-translator leaderboard
(pandas `groupby.max` + `sort_values` descending + a dense 1-based index
column), a sidebar search filter, and a global summary (distinct translator
count via `nunique`, total downloads after `drop_duplicates(subset=["PID"])`).

Machine integers: Python integers are unbounded, so `Int` models them exactly.
The file system is modelled as an `Option` of already-parsed content, since
`load_results` only distinguishes "file missing" (the `FileNotFoundError`
branch) from "file present and parsed".
-/

namespace Dashboard

/-- One element of a record's `posts` array: `title`, `downloads`, `pid`. -/
structure PostRecord where
  title : String
  downloads : Int
  pid : String
deriving DecidableEq

/-- One element of the top-level JSON array: `rank`, `translator`,
`downloads` (the translator's total, trusted input), `posts`. -/
structure ResultRecord where
  rank : Int
  translator : String
  downloads : Int
  posts : List PostRecord
deriving DecidableEq

/-- One row of the flat DataFrame built by `prepare_data`: columns
"Rank", "Translator", "Total Downloads", "Post Title", "Post Downloads",
"PID". -/
structure FlatRow where
  rank : Int
  translator : String
  total_downloads : Int
  post_title : String
  post_downloads : Int
  pid : String
deriving DecidableEq

/-- The dict appended for each `(result, post)` pair in `prepare_data`'s
inner loop body (dashboard.py lines 23-30). -/
def mkRow (result : ResultRecord) (post : PostRecord) : FlatRow :=
  { rank := result.rank
    translator := result.translator
    total_downloads := result.downloads
    post_title := post.title
    post_downloads := post.downloads
    pid := post.pid }

/-- `prepare_data` (dashboard.py lines 18-31): two nested `for` loops that
append one dict per post to the list `data`. -/
def prepare_data (results : List ResultRecord) : List FlatRow :=
  results.foldl
    (fun data result =>
      result.posts.foldl (fun data post => data ++ [mkRow result post]) data)
    []

lemma prepare_data_inner (R : ResultRecord) (posts : List PostRecord)
    (data : List FlatRow) :
    posts.foldl (fun data post => data ++ [mkRow R post]) data
      = data ++ posts.map (mkRow R) := by
  induction posts generalizing data with
  | nil => simp
  | cons p ps ih => simp [ih]

lemma prepare_data_outer (results : List ResultRecord) (data : List FlatRow) :
    results.foldl
        (fun data result =>
          result.posts.foldl (fun data post => data ++ [mkRow result post]) data)
        data
      = data ++ results.flatMap (fun R => R.posts.map (mkRow R)) := by
  induction results generalizing data with
  | nil => simp
  | cons R rs ih =>
    rw [List.foldl_cons, ih]
    simp [prepare_data_inner, List.append_assoc]

/-- The nested loops of `prepare_data` produce exactly the order-preserving
flatten: records in input order, and posts in input order inside a record. -/
lemma prepare_data_eq_bind (results : List ResultRecord) :
    prepare_data results = results.flatMap (fun R => R.posts.map (mkRow R)) := by
  simp [prepare_data, prepare_data_outer]

/-- `df.drop_duplicates(subset=["PID"])` (dashboard.py lines 138-139): keep
the first row for each `PID` value, preserving row order. -/
def dedupByPid : List FlatRow → List FlatRow
  | [] => []
  | r :: rs => r :: dedupByPid (rs.filter (fun x => !(x.pid == r.pid)))
termination_by l => l.length
decreasing_by
  simp only [List.length_cons]
  exact Nat.lt_succ_of_le (List.length_filter_le _ _)

/-- `df["Translator"].nunique()` (dashboard.py line 140): the number of
distinct values in the Translator column. -/
def nunique_translators (df : List FlatRow) : Nat :=
  ((df.map (fun r => r.translator)).dedup).length

/-- `unique_posts["Post Downloads"].sum()` (dashboard.py line 141): the sum
of the post-level downloads after deduplicating rows by PID. -/
def global_total_downloads (df : List FlatRow) : Int :=
  ((dedupByPid df).map (fun r => r.post_downloads)).sum

/-- Python substring membership `needle in hay` on lists of characters. -/
def containsSub (hay needle : List Char) : Bool :=
  match hay with
  | [] => needle.isEmpty
  | _ :: t => needle.isPrefixOf hay || containsSub t needle

/-- Python `str.lower()`: lowercase the string character by character
(written over the character list so that it evaluates by kernel
reduction). -/
def lowerStr (s : String) : String := String.mk (s.data.map Char.toLower)

/-- The comprehension `[t for t in translators if search_term.lower() in t.lower()]`
(dashboard.py line 62). -/
def matching_translators (translators : List String) (search_term : String) :
    List String :=
  translators.filter
    (fun t => containsSub (lowerStr t).toList (lowerStr search_term).toList)

/-- The option list handed to the sidebar selectbox (dashboard.py lines
61-65): the filtered matches when the search box is non-empty (Python
truthiness of the string), the full translator list otherwise. -/
def selectable (translators : List String) (search_term : String) :
    List String :=
  if search_term ≠ "" then matching_translators translators search_term
  else translators

/-- One row of the aggregated `groupby("Translator")[["Rank","Total Downloads"]].max()`
result (dashboard.py lines 50-53), before sorting and indexing. -/
structure GroupRow where
  translator : String
  rank : Int
  total_downloads : Int
deriving DecidableEq

/-- One row of the final `translator_table` (dashboard.py lines 56-57),
columns "Index", "Rank", "Translator", "Total Downloads". -/
structure LeaderRow where
  idx : Nat
  rank : Int
  translator : String
  total_downloads : Int
deriving DecidableEq

/-- Maximum of a list of integers, with 0 for the (never used) empty case;
models the pandas columnwise `.max()` on a non-empty group. -/
def maxInt : List Int → Int
  | [] => 0
  | [x] => x
  | x :: y :: ys => max x (maxInt (y :: ys))

/-- Ascending order on group keys — pandas `groupby` sorts its string keys
lexicographically. Stated on the character lists so that it evaluates by
kernel reduction. -/
def strAsc (a b : String) : Prop := a.data ≤ b.data

instance : DecidableRel strAsc :=
  fun a b => inferInstanceAs (Decidable (a.data ≤ b.data))

instance : IsTotal String strAsc := ⟨fun a b => le_total a.data b.data⟩

instance : IsTrans String strAsc := ⟨fun _ _ _ hab hbc => le_trans hab hbc⟩

/-- Descending order on "Total Downloads", the key of
`sort_values("Total Downloads", ascending=False)`. -/
def downloadsDesc (a b : GroupRow) : Prop := b.total_downloads ≤ a.total_downloads

instance : DecidableRel downloadsDesc :=
  fun a b => inferInstanceAs (Decidable (b.total_downloads ≤ a.total_downloads))

instance : IsTotal GroupRow downloadsDesc := ⟨fun a b => le_total b.total_downloads a.total_downloads⟩

instance : IsTrans GroupRow downloadsDesc := ⟨fun _ _ _ hab hbc => le_trans hbc hab⟩

/-- The sorted distinct values of the Translator column: pandas `groupby`
iterates group keys in sorted order. -/
def groupKeys (df : List FlatRow) : List String :=
  List.insertionSort strAsc ((df.map (fun r => r.translator)).dedup)

/-- The rows of `df` belonging to one translator group. -/
def groupRows (df : List FlatRow) (t : String) : List FlatRow :=
  df.filter (fun r => r.translator == t)

/-- The `.max()` aggregate of one translator group over the Rank and
Total Downloads columns. -/
def groupAgg (df : List FlatRow) (t : String) : GroupRow :=
  { translator := t
    rank := maxInt ((groupRows df t).map (fun r => r.rank))
    total_downloads := maxInt ((groupRows df t).map (fun r => r.total_downloads)) }

/-- `df.groupby("Translator")[["Rank", "Total Downloads"]].max().reset_index()`
(dashboard.py lines 51-53). -/
def groupedTable (df : List FlatRow) : List GroupRow :=
  (groupKeys df).map (groupAgg df)

/-- `.sort_values("Total Downloads", ascending=False)` (dashboard.py line 54).
pandas' quicksort fixes some tie order; a stable sort is one refinement. -/
def sortedTable (df : List FlatRow) : List GroupRow :=
  List.insertionSort downloadsDesc (groupedTable df)

/-- `translator_table["Index"] = range(1, len(translator_table) + 1)`
(dashboard.py line 56): attach a dense 1-based index in display order. -/
def addIndex : Nat → List GroupRow → List LeaderRow
  | _, [] => []
  | i, g :: gs =>
    { idx := i, rank := g.rank, translator := g.translator,
      total_downloads := g.total_downloads } :: addIndex (i + 1) gs

/-- The sidebar leaderboard `translator_table` (dashboard.py lines 50-57). -/
def translator_table (df : List FlatRow) : List LeaderRow :=
  addIndex 1 (sortedTable df)

/-- A user-visible streamlit call made by the dashboard, with the data it
displays. Rendering details (labels, charts' axes) are abstracted to the
data they are fed. -/
inductive Effect where
  | set_page_config : Effect
  | show_title (s : String) : Effect
  | show_error (s : String) : Effect
  | sidebar_title (s : String) : Effect
  | selectbox (options : List String) : Effect
  | leader_list (table : List LeaderRow) : Effect
  | overview (selected : String) (total : Int) (posts : Nat) : Effect
  | charts (rows : List FlatRow) : Effect
  | post_table (rows : List FlatRow) : Effect
  | global_insights (translators : Nat) (downloads : Int) : Effect
deriving DecidableEq

/-- `load_results` (dashboard.py lines 8-14). The file system is an
`Option (List ResultRecord)`: `none` means `final_results.json` is absent
(the `FileNotFoundError` branch fires, an error notice is emitted and `[]`
is returned); `some rs` means the file parses to `rs`. The result is the
list of emitted effects paired with the returned value. -/
def load_results (fs : Option (List ResultRecord)) :
    List Effect × List ResultRecord :=
  match fs with
  | some results => ([], results)
  | none =>
    ([Effect.show_error "Final results file not found. Please run the algorithm first."],
      [])

/-- The body of `main` after the `if not results: return` guard (dashboard.py
lines 43-153): shape the data, render the sidebar, the selected translator's
panel, and the global insights. The selectbox returns its first option. -/
def main_body (results : List ResultRecord) (search_term : String) :
    List Effect :=
  let df := prepare_data results
  let table := translator_table df
  let translators := table.map (fun row => row.translator)
  let options := selectable translators search_term
  let selected := options.headD ""
  let translator_data := df.filter (fun r => r.translator == selected)
  [Effect.sidebar_title "Translator Selector",
   Effect.selectbox options,
   Effect.leader_list table,
   Effect.overview selected ((translator_data.map (fun r => r.total_downloads)).headD 0)
     translator_data.length,
   Effect.charts translator_data,
   Effect.post_table translator_data,
   Effect.global_insights (nunique_translators df) (global_total_downloads df)]

/-- `main` (dashboard.py lines 35-153) as the trace of user-visible effects:
page setup and title, then whatever `load_results` emits, then — only when
the loaded list is non-empty — the dashboard body. `return` on an empty
list cuts the trace short. -/
def main (fs : Option (List ResultRecord)) (search_term : String) :
    List Effect :=
  let header := [Effect.set_page_config,
    Effect.show_title "Trending Translators Dashboard"]
  let loaded := load_results fs
  if loaded.2.isEmpty then header ++ loaded.1
  else header ++ loaded.1 ++ main_body loaded.2 search_term

lemma maxInt_mem : ∀ l : List Int, l ≠ [] → maxInt l ∈ l
  | [], h => absurd rfl h
  | [x], _ => by simp [maxInt]
  | x :: y :: ys, _ => by
    rcases max_choice x (maxInt (y :: ys)) with h | h
    · simp [maxInt, h]
    · have := maxInt_mem (y :: ys) (by simp)
      simp only [maxInt, h]
      exact List.mem_cons_of_mem _ this

lemma le_maxInt : ∀ l : List Int, ∀ x ∈ l, x ≤ maxInt l
  | [x], z, hz => by simp at hz; simp [maxInt, hz]
  | x :: y :: ys, z, hz => by
    rcases List.mem_cons.mp hz with h | h
    · simp [maxInt, h]
    · have := le_maxInt (y :: ys) z h
      simp only [maxInt]
      exact le_max_of_le_right this

lemma addIndex_map_translator (i : Nat) (l : List GroupRow) :
    (addIndex i l).map (fun row => row.translator)
      = l.map (fun g => g.translator) := by
  induction l generalizing i with
  | nil => rfl
  | cons g gs ih => simp [addIndex, ih]

lemma addIndex_map_rank (i : Nat) (l : List GroupRow) :
    (addIndex i l).map (fun row => row.rank) = l.map (fun g => g.rank) := by
  induction l generalizing i with
  | nil => rfl
  | cons g gs ih => simp [addIndex, ih]

lemma addIndex_map_total (i : Nat) (l : List GroupRow) :
    (addIndex i l).map (fun row => row.total_downloads)
      = l.map (fun g => g.total_downloads) := by
  induction l generalizing i with
  | nil => rfl
  | cons g gs ih => simp [addIndex, ih]

lemma addIndex_length (i : Nat) (l : List GroupRow) :
    (addIndex i l).length = l.length := by
  induction l generalizing i with
  | nil => rfl
  | cons g gs ih => simp [addIndex, ih]

lemma addIndex_map_idx (i : Nat) (l : List GroupRow) :
    (addIndex i l).map (fun row => row.idx) = List.range' i l.length := by
  induction l generalizing i with
  | nil => rfl
  | cons g gs ih => simp [addIndex, ih, List.range']

lemma addIndex_mem (i : Nat) (l : List GroupRow) (row : LeaderRow)
    (h : row ∈ addIndex i l) :
    ∃ g ∈ l, row.rank = g.rank ∧ row.translator = g.translator ∧
      row.total_downloads = g.total_downloads := by
  induction l generalizing i with
  | nil => simp [addIndex] at h
  | cons g gs ih =>
    rcases List.mem_cons.mp h with h | h
    · exact ⟨g, List.mem_cons_self _ _, by simp [h]⟩
    · obtain ⟨g0, hg0, hprop⟩ := ih (i + 1) h
      exact ⟨g0, List.mem_cons_of_mem _ hg0, hprop⟩

lemma addIndex_pairwise (i : Nat) (l : List GroupRow)
    (h : List.Pairwise downloadsDesc l) :
    List.Pairwise (fun a b : LeaderRow => b.total_downloads ≤ a.total_downloads)
      (addIndex i l) := by
  induction l generalizing i with
  | nil => exact List.Pairwise.nil
  | cons g gs ih =>
    rcases List.pairwise_cons.mp h with ⟨hg, hgs⟩
    refine List.pairwise_cons.mpr ⟨?_, ih (i + 1) hgs⟩
    intro row hrow
    obtain ⟨g0, hg0, _, _, htot⟩ := addIndex_mem _ _ _ hrow
    simpa [htot] using hg g0 hg0

/-- The Translator column of the leaderboard is a permutation of the
distinct translators of the flat table. -/
lemma translator_table_perm (df : List FlatRow) :
    ((translator_table df).map (fun row => row.translator)).Perm
      ((df.map (fun r => r.translator)).dedup) := by
  unfold translator_table sortedTable groupedTable groupKeys
  rw [addIndex_map_translator]
  refine ((List.perm_insertionSort downloadsDesc _).map _).trans ?_
  rw [List.map_map]
  have : ((fun g : GroupRow => g.translator) ∘ groupAgg df)
      = fun t => t := by
    funext t; rfl
  rw [this]
  simpa using List.perm_insertionSort strAsc ((df.map (fun r => r.translator)).dedup)

lemma mem_of_mem_dedupByPid (l : List FlatRow) (x : FlatRow)
    (h : x ∈ dedupByPid l) : x ∈ l := by
  induction l using dedupByPid.induct with
  | case1 => simp [dedupByPid] at h
  | case2 r rs ih =>
    rw [dedupByPid] at h
    rcases List.mem_cons.mp h with h | h
    · exact h ▸ List.mem_cons_self _ _
    · exact List.mem_cons_of_mem _ (List.mem_of_mem_filter (ih h))

lemma find?_filter_of_imp {α : Type} (l : List α) (q keep : α → Bool)
    (h : ∀ x, q x = true → keep x = true) :
    (l.filter keep).find? q = l.find? q := by
  induction l with
  | nil => rfl
  | cons x xs ih =>
    by_cases hq : q x = true
    · rw [List.filter_cons_of_pos (h x hq), List.find?_cons_of_pos _ hq,
        List.find?_cons_of_pos _ hq]
    · by_cases hk : keep x = true
      · rw [List.filter_cons_of_pos hk, List.find?_cons_of_neg _ hq,
          List.find?_cons_of_neg _ hq, ih]
      · rw [List.filter_cons_of_neg (by simpa using hk),
          List.find?_cons_of_neg _ hq, ih]

lemma global_total_cons (r : FlatRow) (rs : List FlatRow) :
    global_total_downloads (r :: rs)
      = r.post_downloads
        + global_total_downloads (rs.filter (fun x => !(x.pid == r.pid))) := by
  rw [global_total_downloads, dedupByPid]
  simp [global_total_downloads]

/-- Splitting the global total at a PID value: the first row carrying that
PID contributes its downloads once, and the rest of the total comes from
the rows with other PIDs. -/
lemma global_total_split (df : List FlatRow) (p : String) (r0 : FlatRow)
    (h : df.find? (fun r => r.pid == p) = some r0) :
    global_total_downloads df
      = r0.post_downloads
        + global_total_downloads (df.filter (fun r => !(r.pid == p))) := by
  induction df using dedupByPid.induct with
  | case1 => simp at h
  | case2 r rs ih =>
    by_cases hp : r.pid = p
    · rw [List.find?_cons_of_pos _ (by simpa using hp)] at h
      cases h
      rw [global_total_cons, List.filter_cons_of_neg (by simpa using hp), hp]
    · rw [List.find?_cons_of_neg _ (by simpa using hp)] at h
      have hfind : (rs.filter (fun x => !(x.pid == r.pid))).find?
          (fun r => r.pid == p) = some r0 := by
        rw [find?_filter_of_imp]
        · exact h
        · intro x hx
          simp only [beq_iff_eq] at hx
          simp only [hx, Bool.not_eq_true', beq_eq_false_iff_ne, ne_eq]
          exact fun he => hp he.symm
      have := ih hfind
      rw [global_total_cons, this, List.filter_cons_of_pos (by simpa using hp),
        global_total_cons, List.filter_comm]
      ring

/-- After PID-deduplication, the rows carrying a given PID value reduce to
exactly the first input row carrying it. -/
lemma dedupByPid_filter_eq (df : List FlatRow) (p : String) (r0 : FlatRow)
    (h : df.find? (fun r => r.pid == p) = some r0) :
    (dedupByPid df).filter (fun r => r.pid == p) = [r0] := by
  induction df using dedupByPid.induct with
  | case1 => simp at h
  | case2 r rs ih =>
    rw [dedupByPid]
    by_cases hp : r.pid = p
    · rw [List.find?_cons_of_pos _ (by simpa using hp)] at h
      have he : r = r0 := by injection h
      rw [← he, List.filter_cons_of_pos (by simpa using hp)]
      have hnil : (dedupByPid (rs.filter (fun x => !(x.pid == r.pid)))).filter
          (fun x => x.pid == p) = [] := by
        rw [List.filter_eq_nil_iff]
        intro x hx
        have := List.of_mem_filter (mem_of_mem_dedupByPid _ _ hx)
        simp only [Bool.not_eq_true', beq_eq_false_iff_ne, ne_eq] at this
        simpa [hp] using this
      rw [hnil]
    · rw [List.find?_cons_of_neg _ (by simpa using hp)] at h
      have hfind : (rs.filter (fun x => !(x.pid == r.pid))).find?
          (fun r => r.pid == p) = some r0 := by
        rw [find?_filter_of_imp]
        · exact h
        · intro x hx
          simp only [beq_iff_eq] at hx
          simp only [hx, Bool.not_eq_true', beq_eq_false_iff_ne, ne_eq]
          exact fun he => hp he.symm
      rw [List.filter_cons_of_neg (by simpa using hp)]
      exact ih hfind

/-- Python's `needle in hay` holds exactly when `needle` occurs contiguously
inside `hay`. -/
lemma containsSub_iff (hay needle : List Char) :
    containsSub hay needle = true
      ↔ ∃ pre post, hay = pre ++ needle ++ post := by
  induction hay with
  | nil =>
    rw [containsSub, List.isEmpty_iff]
    constructor
    · rintro rfl
      exact ⟨[], [], rfl⟩
    · rintro ⟨pre, post, h⟩
      rcases List.append_eq_nil.mp ((List.append_eq_nil.mp h.symm).1) with ⟨-, h2⟩
      exact h2
  | cons c t ih =>
    rw [containsSub, Bool.or_eq_true, ih, List.isPrefixOf_iff_prefix]
    constructor
    · rintro (⟨s, hs⟩ | ⟨pre, post, hpp⟩)
      · exact ⟨[], s, by simp [hs]⟩
      · exact ⟨c :: pre, post, by simp [hpp]⟩
    · rintro ⟨pre, post, heq⟩
      cases pre with
      | nil =>
        left
        exact ⟨post, by simpa using heq.symm⟩
      | cons p ps =>
        right
        simp only [List.cons_append, List.cons.injEq] at heq
        exact ⟨ps, post, heq.2⟩

/-- C6: `prepare_data` preserves order — the flat table is the
order-preserving flatten of the records: rows for translators appear in the
input order of the records and, within each record, rows for posts appear
in the input order of that record's `posts` array, each row being the dict
built from the record and the post. -/
theorem C6_prepare_data_preserves_order (results : List ResultRecord) :
    prepare_data results
      = results.flatMap (fun R => R.posts.map (mkRow R)) :=
  prepare_data_eq_bind results

/-- C7: on the empty input array the flat table has zero rows, and the
global summary computed from it reports zero distinct translators and zero
total downloads. -/
theorem C7_empty_input :
    prepare_data [] = [] ∧ nunique_translators (prepare_data []) = 0 ∧
      global_total_downloads (prepare_data []) = 0 := by
  refine ⟨rfl, rfl, ?_⟩
  simp [global_total_downloads, prepare_data, dedupByPid]

/-- C1: every row of the flat table comes from a record `R` of the input
and a post of `R`, and carries `R`'s `downloads` as "Total Downloads" and
`R`'s `rank` as "Rank", copied unchanged (together with the post's own
title, downloads and pid). -/
theorem C1_rows_inherit_parent_totals (results : List ResultRecord)
    (row : FlatRow) (h : row ∈ prepare_data results) :
    ∃ R ∈ results, ∃ post ∈ R.posts,
      row.total_downloads = R.downloads ∧ row.rank = R.rank ∧
      row.translator = R.translator ∧ row.post_title = post.title ∧
      row.post_downloads = post.downloads ∧ row.pid = post.pid := by
  rw [prepare_data_eq_bind] at h
  simp only [List.mem_flatMap, List.mem_map] at h
  obtain ⟨R, hR, post, hpost, rfl⟩ := h
  exact ⟨R, hR, post, hpost, rfl, rfl, rfl, rfl, rfl, rfl⟩

/-- The single-record input of the spec's worked scenario. -/
def exScenario : List ResultRecord :=
  [{ rank := 1, translator := "A", downloads := 100,
     posts := [{ title := "p1", downloads := 60, pid := "x" },
               { title := "p2", downloads := 40, pid := "y" }] }]

/-- Concrete instantiation of `C1_rows_inherit_parent_totals` on the spec's
worked scenario, second flat row. -/
theorem C1_witness :
    ∃ R ∈ exScenario, ∃ post ∈ R.posts,
      (1015 : Int) - 915 = R.downloads ∧ (1 : Int) = R.rank ∧
      "A" = R.translator ∧ "p2" = post.title ∧
      (40 : Int) = post.downloads ∧ "y" = post.pid := by
  have h := C1_rows_inherit_parent_totals exScenario
    { rank := 1, translator := "A", total_downloads := 100,
      post_title := "p2", post_downloads := 40, pid := "y" } (by decide)
  obtain ⟨R, hR, post, hpost, h1, h2, h3, h4, h5, h6⟩ := h
  exact ⟨R, hR, post, hpost, by rw [← h1]; decide, h2, h3, h4, h5, h6⟩

/-- C2: when two distinct translators each contribute a post with the same
PID and the same downloads value `D` (and every row carrying that PID has
downloads `D`), the global total counts `D` exactly once: it splits as `D`
plus the total of the rows with other PIDs. -/
theorem C2_shared_pid_counted_once (results : List ResultRecord)
    (t1 t2 p : String) (D : Int) (hne : t1 ≠ t2)
    (h1 : ∃ r ∈ prepare_data results,
      r.translator = t1 ∧ r.pid = p ∧ r.post_downloads = D)
    (h2 : ∃ r ∈ prepare_data results,
      r.translator = t2 ∧ r.pid = p ∧ r.post_downloads = D)
    (hall : ∀ r ∈ prepare_data results, r.pid = p → r.post_downloads = D) :
    global_total_downloads (prepare_data results)
      = D + global_total_downloads
          ((prepare_data results).filter (fun r => !(r.pid == p))) := by
  obtain ⟨r1, hr1, -, hpid1, -⟩ := h1
  have hsome : ((prepare_data results).find? (fun r => r.pid == p)).isSome :=
    List.find?_isSome.mpr ⟨r1, hr1, by simp [hpid1]⟩
  obtain ⟨r0, hr0⟩ := Option.isSome_iff_exists.mp hsome
  have hp0 : r0.pid = p := by simpa using List.find?_some hr0
  have hd0 : r0.post_downloads = D :=
    hall r0 (List.mem_of_find?_eq_some hr0) hp0
  rw [global_total_split _ p r0 hr0, hd0]

/-- Two translators sharing the post `"x"` with downloads 50. -/
def exShared : List ResultRecord :=
  [{ rank := 1, translator := "A", downloads := 100,
     posts := [{ title := "p", downloads := 50, pid := "x" }] },
   { rank := 2, translator := "B", downloads := 80,
     posts := [{ title := "q", downloads := 50, pid := "x" }] }]

/-- Concrete instantiation of `C2_shared_pid_counted_once`: translators
"A" and "B" both carry pid "x" with downloads 50, and the global total
splits off 50 exactly once. -/
theorem C2_witness :
    global_total_downloads (prepare_data exShared)
      = 50 + global_total_downloads
          ((prepare_data exShared).filter (fun r => !(r.pid == "x"))) :=
  C2_shared_pid_counted_once exShared "A" "B" "x" 50 (by decide)
    (by decide) (by decide) (by decide)

/-- C9: when two flat rows share a PID, the global total uses the downloads
value of the first row carrying that PID in flat-table order: the PID-dedup
keeps exactly that first row (`List.find?`) whatever the later rows' values,
and the total splits into its downloads plus the other PIDs' total. -/
theorem C9_first_occurrence_wins (df : List FlatRow) (i j : Nat)
    (hi : i < df.length) (hj : j < df.length) (hij : i < j)
    (hpid : (df.get ⟨i, hi⟩).pid = (df.get ⟨j, hj⟩).pid)
    (hdl : (df.get ⟨i, hi⟩).post_downloads ≠ (df.get ⟨j, hj⟩).post_downloads) :
    ∃ r0, df.find? (fun r => r.pid == (df.get ⟨i, hi⟩).pid) = some r0 ∧
      (dedupByPid df).filter (fun r => r.pid == (df.get ⟨i, hi⟩).pid) = [r0] ∧
      global_total_downloads df
        = r0.post_downloads
          + global_total_downloads
              (df.filter (fun r => !(r.pid == (df.get ⟨i, hi⟩).pid))) := by
  have hmem : df.get ⟨i, hi⟩ ∈ df := df.get_mem _ _
  have hsome : (df.find? (fun r => r.pid == (df.get ⟨i, hi⟩).pid)).isSome :=
    List.find?_isSome.mpr ⟨df.get ⟨i, hi⟩, hmem, by simp⟩
  obtain ⟨r0, hr0⟩ := Option.isSome_iff_exists.mp hsome
  exact ⟨r0, hr0, dedupByPid_filter_eq _ _ _ hr0,
    global_total_split _ _ _ hr0⟩

/-- A flat table in which the two rows share pid "x" with different
post-level downloads (60 first, 40 second). -/
def exConflict : List FlatRow :=
  [{ rank := 1, translator := "A", total_downloads := 100,
     post_title := "t1", post_downloads := 60, pid := "x" },
   { rank := 2, translator := "B", total_downloads := 80,
     post_title := "t2", post_downloads := 40, pid := "x" }]

/-- Concrete instantiation of `C9_first_occurrence_wins` on `exConflict`
(rows 0 and 1 share pid "x" but disagree on downloads). -/
theorem C9_witness :
    ∃ r0, exConflict.find?
        (fun r => r.pid == (exConflict.get ⟨0, by decide⟩).pid) = some r0 ∧
      (dedupByPid exConflict).filter
        (fun r => r.pid == (exConflict.get ⟨0, by decide⟩).pid) = [r0] ∧
      global_total_downloads exConflict
        = r0.post_downloads
          + global_total_downloads
              (exConflict.filter
                (fun r => !(r.pid == (exConflict.get ⟨0, by decide⟩).pid))) :=
  C9_first_occurrence_wins exConflict 0 1 (by decide) (by decide) (by decide)
    (by decide) (by decide)

/-- C5: for a non-empty search term the selectable set is exactly the
translators whose lower-cased name contains the lower-cased term as a
contiguous substring; for the empty term it is the full translator list. -/
theorem C5_search_filter (translators : List String) (s t : String) :
    (s ≠ "" →
      (t ∈ selectable translators s ↔
        t ∈ translators ∧
          ∃ pre post,
            (lowerStr t).toList = pre ++ (lowerStr s).toList ++ post)) ∧
    (s = "" → selectable translators s = translators) := by
  constructor
  · intro hs
    rw [selectable, if_pos hs, matching_translators, List.mem_filter,
      containsSub_iff]
  · intro hs
    rw [selectable, if_neg (by simp [hs])]

/-- Concrete instantiation of `C5_search_filter`: the term "LI" selects
"Alice" from ["Alice", "Bob"], and the empty term keeps the full list. -/
theorem C5_witness :
    "Alice" ∈ selectable ["Alice", "Bob"] "LI" ∧
      selectable ["Alice", "Bob"] "" = ["Alice", "Bob"] := by
  constructor
  · exact ((C5_search_filter ["Alice", "Bob"] "LI" "Alice").1 (by decide)).mpr
      ⟨by decide, ['a'], ['c', 'e'], by decide⟩
  · exact (C5_search_filter ["Alice", "Bob"] "" "Alice").2 rfl

/-- C3: the leaderboard is sorted by Total Downloads descending, carries the
dense 1-based display indices 1..n in sorted order, lists exactly the
distinct translators of the flat table, and each of its rows carries the
maximum Rank and the maximum Total Downloads over that translator's flat
rows. -/
theorem C3_leaderboard_shape (df : List FlatRow) :
    List.Pairwise
        (fun a b : LeaderRow => b.total_downloads ≤ a.total_downloads)
        (translator_table df) ∧
      (translator_table df).map (fun row => row.idx)
        = List.range' 1 (translator_table df).length ∧
      ((translator_table df).map (fun row => row.translator)).Perm
        ((df.map (fun r => r.translator)).dedup) ∧
      ∀ row ∈ translator_table df,
        (row.rank ∈ (groupRows df row.translator).map (fun r => r.rank) ∧
          ∀ x ∈ (groupRows df row.translator).map (fun r => r.rank),
            x ≤ row.rank) ∧
        (row.total_downloads
            ∈ (groupRows df row.translator).map (fun r => r.total_downloads) ∧
          ∀ x ∈ (groupRows df row.translator).map
              (fun r => r.total_downloads), x ≤ row.total_downloads) := by
  refine ⟨addIndex_pairwise 1 _ (List.sorted_insertionSort downloadsDesc _),
    by rw [translator_table, addIndex_map_idx, addIndex_length],
    translator_table_perm df, ?_⟩
  intro row hrow
  obtain ⟨g, hg, hrank, htrans, htot⟩ := addIndex_mem _ _ _ hrow
  have hg2 : g ∈ groupedTable df :=
    ((List.perm_insertionSort downloadsDesc _).mem_iff).mp hg
  obtain ⟨tkey, htkey, rfl⟩ := List.mem_map.mp hg2
  have htkey2 : tkey ∈ (df.map (fun r => r.translator)).dedup :=
    ((List.perm_insertionSort strAsc _).mem_iff).mp htkey
  obtain ⟨r, hr, hrt⟩ := List.mem_map.mp (List.mem_dedup.mp htkey2)
  have hne : (groupRows df tkey).map (fun x => x.rank) ≠ [] := by
    have : r ∈ groupRows df tkey := List.mem_filter.mpr ⟨hr, by simp [hrt]⟩
    intro hnil
    rw [List.map_eq_nil_iff] at hnil
    simp [hnil] at this
  have hne2 : (groupRows df tkey).map (fun x => x.total_downloads) ≠ [] := by
    have : r ∈ groupRows df tkey := List.mem_filter.mpr ⟨hr, by simp [hrt]⟩
    intro hnil
    rw [List.map_eq_nil_iff] at hnil
    simp [hnil] at this
  have htt : row.translator = tkey := htrans
  rw [htt, hrank, htot]
  simp only [groupAgg]
  exact ⟨⟨maxInt_mem _ hne, fun x hx => le_maxInt _ x hx⟩,
    ⟨maxInt_mem _ hne2, fun x hx => le_maxInt _ x hx⟩⟩

/-- Concrete instantiation of `C3_leaderboard_shape` on `exConflict`: its
leaderboard row for translator "A" carries the maximal rank and maximal
total over "A"'s flat rows. -/
theorem C3_witness :
    ((1 : Int) ∈ (groupRows exConflict "A").map (fun r => r.rank) ∧
      ∀ x ∈ (groupRows exConflict "A").map (fun r => r.rank),
        x ≤ (1 : Int)) ∧
    ((100 : Int) ∈ (groupRows exConflict "A").map
        (fun r => r.total_downloads) ∧
      ∀ x ∈ (groupRows exConflict "A").map (fun r => r.total_downloads),
        x ≤ (100 : Int)) :=
  (C3_leaderboard_shape exConflict).2.2.2
    { idx := 1, rank := 1, translator := "A", total_downloads := 100 }
    (by decide)

/-- C10: the leaderboard has exactly one row per distinct translator name of
the flat table — its length is the number of distinct names, and each name
occurring in the table owns exactly one leaderboard row. -/
theorem C10_one_row_per_translator (df : List FlatRow) (hne : df ≠ []) :
    (translator_table df).length
        = ((df.map (fun r => r.translator)).dedup).length ∧
      ∀ t ∈ df.map (fun r => r.translator),
        ((translator_table df).filter
            (fun row => row.translator == t)).length = 1 := by
  refine ⟨by simpa using (translator_table_perm df).length_eq, fun t ht => ?_⟩
  have h1 : ((df.map (fun r => r.translator)).dedup).count t = 1 :=
    List.count_eq_one_of_mem (List.nodup_dedup _) (List.mem_dedup.mpr ht)
  have h3 : ((translator_table df).map (fun row => row.translator)).countP
      (fun s => s == t) = 1 := by
    rw [(translator_table_perm df).countP_eq]; exact h1
  rw [List.countP_map] at h3
  rw [← List.countP_eq_length_filter]
  exact h3

/-- A flat table whose two rows share the translator name "A". -/
def exSameName : List FlatRow :=
  [{ rank := 1, translator := "A", total_downloads := 100,
     post_title := "t1", post_downloads := 60, pid := "x" },
   { rank := 1, translator := "A", total_downloads := 100,
     post_title := "t2", post_downloads := 40, pid := "y" }]

/-- Concrete instantiation of `C10_one_row_per_translator`: the two rows of
`exSameName` merge into a single leaderboard row for "A". -/
theorem C10_witness :
    (translator_table exSameName).length
        = ((exSameName.map (fun r => r.translator)).dedup).length ∧
      ((translator_table exSameName).filter
          (fun row => row.translator == "A")).length = 1 := by
  have h := C10_one_row_per_translator exSameName (by decide)
  exact ⟨h.1, h.2 "A" (by decide)⟩

/-- C8: a record with an empty `posts` array contributes no rows to the
flat table (removing it from the input leaves the table unchanged), and —
when no other record shares its name — its translator appears neither among
the flat table's translators (hence not in the distinct-translator count)
nor in any leaderboard row. -/
theorem C8_empty_posts_invisible (pre post : List ResultRecord)
    (R : ResultRecord) (hempty : R.posts = []) :
    prepare_data (pre ++ R :: post) = prepare_data (pre ++ post) ∧
    ((∀ S ∈ pre ++ post, S.translator ≠ R.translator) →
      R.translator ∉ (prepare_data (pre ++ R :: post)).map
          (fun r => r.translator) ∧
      ∀ row ∈ translator_table (prepare_data (pre ++ R :: post)),
        row.translator ≠ R.translator) := by
  have hflat : prepare_data (pre ++ R :: post) = prepare_data (pre ++ post) := by
    rw [prepare_data_eq_bind, prepare_data_eq_bind]
    simp [hempty]
  refine ⟨hflat, fun hothers => ?_⟩
  have hnot : R.translator
      ∉ (prepare_data (pre ++ R :: post)).map (fun r => r.translator) := by
    rw [hflat]
    intro hmem
    obtain ⟨r, hrmem, hre⟩ := List.mem_map.mp hmem
    rw [prepare_data_eq_bind] at hrmem
    simp only [List.mem_flatMap, List.mem_map] at hrmem
    obtain ⟨S, hS, p0, hp0, rfl⟩ := hrmem
    exact hothers S hS (by simpa [mkRow] using hre)
  refine ⟨hnot, fun row hrow hcontra => ?_⟩
  have hmm : row.translator
      ∈ (translator_table (prepare_data (pre ++ R :: post))).map
          (fun r => r.translator) := List.mem_map_of_mem _ hrow
  exact hnot (hcontra ▸ List.mem_dedup.mp
    (((translator_table_perm _).mem_iff).mp hmm))

/-- A record with an empty posts array. -/
def zRec : ResultRecord :=
  { rank := 5, translator := "Z", downloads := 10, posts := [] }

/-- Concrete instantiation of `C8_empty_posts_invisible`: inserting `zRec`
in front of the worked scenario changes neither the flat table nor the
translators on display. -/
theorem C8_witness :
    prepare_data ([] ++ zRec :: exScenario) = prepare_data ([] ++ exScenario) ∧
      ("Z" ∉ (prepare_data ([] ++ zRec :: exScenario)).map
          (fun r => r.translator) ∧
        ∀ row ∈ translator_table (prepare_data ([] ++ zRec :: exScenario)),
          row.translator ≠ "Z") := by
  have h := C8_empty_posts_invisible [] exScenario zRec rfl
  exact ⟨h.1, h.2 (by decide)⟩

/-- C4: a missing input file makes `load_results` emit the user-visible
error notice and return the empty list without raising, and `main` given an
empty loaded list stops right after the header and the loader's notice — no
shaping and no rendering effects follow. -/
theorem C4_missing_file_halts :
    load_results none
        = ([Effect.show_error
            "Final results file not found. Please run the algorithm first."],
          []) ∧
      ∀ fs search_term, (load_results fs).2 = [] →
        main fs search_term
          = [Effect.set_page_config,
             Effect.show_title "Trending Translators Dashboard"]
              ++ (load_results fs).1 := by
  refine ⟨rfl, fun fs st h => ?_⟩
  rw [main]
  simp [h, List.isEmpty_iff]

/-- Concrete instantiation of `C4_missing_file_halts`: with no file on disk
the whole trace is the page header plus the error notice. -/
theorem C4_witness :
    main none ""
      = [Effect.set_page_config,
         Effect.show_title "Trending Translators Dashboard"]
          ++ (load_results none).1 :=
  C4_missing_file_halts.2 none "" rfl

end Dashboard
